import Mathlib

/-!
Verification of the credit-transaction ledger of the libertai-inference
repository, shallowly embedded in Lean 4.

Monetary amounts (Python floats holding USD values) are modelled as
rationals; timestamps as integers; the relational store as explicit lists
of rows.  Database check constraints and the uniqueness constraint on
`transaction_hash` (from `src/models/credit_transaction.py`) are evaluated
at commit time: a commit that violates them raises, modelled by
`Except.error`, and leaves the persisted state unchanged.
-/

namespace Libertai

/-- Funding providers, from `src/interfaces/credits.py` together with the
`libertai` member still referenced by `src/services/credit.py` and
`src/routes/credits/ltai.py` (the historical name of the native-token Base
provider, see the alembic rename migrations). -/
inductive CreditTransactionProvider where
  | libertai
  | ltai_base
  | ltai_solana
  | thirdweb
  | voucher
  | sol_solana
deriving DecidableEq, Repr

/-- Transaction statuses, from `src/interfaces/credits.py`. -/
inductive CreditTransactionStatus where
  | pending
  | completed
  | error
deriving DecidableEq, Repr

/-- One row of the `credit_transactions` table,
from `src/models/credit_transaction.py`. -/
structure CreditTransaction where
  id : Nat
  transaction_hash : Option String
  address : String
  amount : ℚ
  amount_left : ℚ
  provider : CreditTransactionProvider
  block_number : Option Int
  expired_at : Option Int
  is_active : Bool
  status : CreditTransactionStatus
deriving DecidableEq, Repr

/-- The persisted database state: the `users` table (only the address
column matters to the ledger), the `credit_transactions` table, and a
counter supplying fresh surrogate ids. -/
structure DB where
  users : List String
  transactions : List CreditTransaction
  nextId : Nat
deriving DecidableEq, Repr

/-- Python truthiness of the optional `transaction_hash` argument:
`None` and the empty string are falsy. -/
def truthyHash : Option String → Bool
  | none => false
  | some s => decide (s ≠ "")

/-- Provider-specific amount adjustment of `add_credits`
(`src/services/credit.py` line 40): the boost for LTAI payments. -/
def adjustAmount (provider : CreditTransactionProvider) (amount : ℚ) : ℚ :=
  if provider = CreditTransactionProvider.libertai then amount * 100 / 80 else amount

/-- The check constraints of `credit_transactions` that touch the amount
columns (`src/models/credit_transaction.py`, `__table_args__`). -/
def rowOkB (t : CreditTransaction) : Bool :=
  decide (0 ≤ t.amount) && decide (0 ≤ t.amount_left) && decide (t.amount_left ≤ t.amount)

/-- The block-number check constraint of `credit_transactions`
(`check_block_number_required_for_provider_libertai` in
`src/models/credit_transaction.py` `__table_args__`, latest deployed form
`check_block_number_required` in alembic revision cc25520c6876): the
thirdweb and voucher providers are exempt, every on-chain provider
requires a non-null `block_number`.  The `libertai` disjunct carries the
historical name of the provider the migrations later renamed to
`ltai_base`; each constraint version requires its block number too. -/
def providerBlockOkB (t : CreditTransaction) : Bool :=
  decide (t.provider = CreditTransactionProvider.thirdweb) ||
  decide (t.provider = CreditTransactionProvider.voucher) ||
  (decide (t.provider = CreditTransactionProvider.libertai) &&
    decide (t.block_number ≠ none)) ||
  (decide (t.provider = CreditTransactionProvider.ltai_base) &&
    decide (t.block_number ≠ none)) ||
  (decide (t.provider = CreditTransactionProvider.ltai_solana) &&
    decide (t.block_number ≠ none)) ||
  (decide (t.provider = CreditTransactionProvider.sol_solana) &&
    decide (t.block_number ≠ none))

/-- The unique constraint on `transaction_hash`: a new row with a non-null
hash must not collide with an existing row (SQL NULLs never collide). -/
def hashUniqueOkB (db : DB) (t : CreditTransaction) : Bool :=
  match t.transaction_hash with
  | none => true
  | some h => !(db.transactions.any (fun u => decide (u.transaction_hash = some h)))

/-- The `users` find-or-create step of `add_credits`
(`src/services/credit.py` lines 52-56). -/
def ensure_user (users : List String) (address : String) : List String :=
  if users.contains address then users else users ++ [address]

/-- CreditService.add_credits (`src/services/credit.py` lines 14-86).
Applies the LTAI boost, finds or creates the user, returns `(false, db)`
without mutation when a truthy hash already exists (the rolled-back
session discards the pending user insert), otherwise inserts the new
transaction; a commit violating a table constraint raises. -/
def add_credits (db : DB) (provider : CreditTransactionProvider) (address : String)
    (amount : ℚ) (transaction_hash : Option String) (block_number : Option Int)
    (expired_at : Option Int) (status : CreditTransactionStatus) :
    Except String (Bool × DB) :=
  let amount := adjustAmount provider amount
  let users := ensure_user db.users address
  if truthyHash transaction_hash &&
      db.transactions.any (fun t => decide (t.transaction_hash = transaction_hash)) then
    .ok (false, db)
  else
    let tx : CreditTransaction :=
      { id := db.nextId
        transaction_hash := transaction_hash
        address := address
        amount := amount
        amount_left := amount
        provider := provider
        block_number := block_number
        expired_at := expired_at
        is_active := true
        status := status }
    if rowOkB tx && providerBlockOkB tx && hashUniqueOkB db tx then
      .ok (true, { users := users, transactions := db.transactions ++ [tx], nextId := db.nextId + 1 })
    else
      .error "IntegrityError"

/-- The filter of `use_credits` and `User.credit_balance`:
the address's rows with `is_active = true AND status = completed`. -/
def eligibleFor (address : String) (t : CreditTransaction) : Bool :=
  decide (t.address = address) && t.is_active && decide (t.status = CreditTransactionStatus.completed)

/-- SQL `expired_at ASC NULLS LAST` as a strict comparison on the sort key. -/
def expKeyLt : Option Int → Option Int → Bool
  | some a, some b => decide (a < b)
  | some _, none => true
  | none, _ => false

/-- Insertion step of the `ORDER BY expired_at ASC NULLS LAST` model. -/
def insertByExp (t : CreditTransaction) : List CreditTransaction → List CreditTransaction
  | [] => [t]
  | u :: us => if expKeyLt u.expired_at t.expired_at then u :: insertByExp t us else t :: u :: us

/-- The `ORDER BY expired_at ASC NULLS LAST` of `use_credits`
(`src/services/credit.py` lines 112-114). -/
def sortByExpiry : List CreditTransaction → List CreditTransaction
  | [] => []
  | t :: ts => insertByExp t (sortByExpiry ts)

/-- The greedy deduction loop of `use_credits` (`src/services/credit.py`
lines 118-131): walks the ordered transactions, skipping rows with no
remaining amount, deducting `min(available, remaining)` from each, and
breaking once the remaining requested amount reaches zero.  Returns the
`(id, new amount_left)` assignments and the remaining shortfall. -/
def drainLoop : List CreditTransaction → ℚ → (List (Nat × ℚ) × ℚ)
  | [], r => ([], r)
  | tx :: rest, r =>
    if tx.amount_left ≤ 0 then drainLoop rest r
    else
      let use := min tx.amount_left r
      let newLeft := tx.amount_left - use
      let r2 := r - use
      if r2 ≤ 0 then ([(tx.id, newLeft)], r2)
      else
        let p := drainLoop rest r2
        ((tx.id, newLeft) :: p.1, p.2)

/-- Applies one pending `amount_left` assignment by row id. -/
def updateOne (us : List (Nat × ℚ)) (t : CreditTransaction) : CreditTransaction :=
  match us.lookup t.id with
  | some v => { t with amount_left := v }
  | none => t

/-- Writes the loop's assignments back into the table. -/
def applyUpdates (txs : List CreditTransaction) (us : List (Nat × ℚ)) :
    List CreditTransaction :=
  txs.map (updateOne us)

/-- Commit-time validation of an UPDATE: every changed row must satisfy the
table's check constraints. -/
def commitOkB (old new : List CreditTransaction) : Bool :=
  (old.zip new).all (fun p => decide (p.1 = p.2) || rowOkB p.2)

/-- CreditService.use_credits (`src/services/credit.py` lines 88-144):
loads the address's active completed transactions ordered by expiry (nulls
last), deducts greedily, logs (only) on shortfall, commits, and returns
`true`; a commit violating a check constraint raises. -/
def use_credits (db : DB) (address : String) (amount : ℚ) :
    Except String (Bool × DB) :=
  let sorted := sortByExpiry (db.transactions.filter (eligibleFor address))
  let us := (drainLoop sorted amount).1
  let newTxs := applyUpdates db.transactions us
  if commitOkB db.transactions newTxs then
    .ok (true, { db with transactions := newTxs })
  else
    .error "IntegrityError"

/-- Sum of `amount_left` over a list of rows. -/
def sumLeft (txs : List CreditTransaction) : ℚ :=
  (txs.map (fun t => t.amount_left)).sum

/-- User.credit_balance (`src/models/user.py` lines 31-53): the sum of
`amount_left` over the address's active completed transactions. -/
def credit_balance (db : DB) (address : String) : ℚ :=
  sumLeft (db.transactions.filter (eligibleFor address))

/-- CreditService.get_balance (`src/services/credit.py` lines 146-169):
0 when no user row exists, otherwise the derived balance; never raises. -/
def get_balance (db : DB) (address : String) : ℚ :=
  if db.users.contains address then credit_balance db address else 0

/-- Sets the status of the first row matching the hash
(the `.first()` of `update_transaction_status`). -/
def set_status_first (h : String) (status : CreditTransactionStatus) :
    List CreditTransaction → List CreditTransaction
  | [] => []
  | t :: ts =>
    if t.transaction_hash = some h then { t with status := status } :: ts
    else t :: set_status_first h status ts

/-- CreditService.update_transaction_status (`src/services/credit.py`
lines 236-265): `false` and no change when no row carries the hash,
otherwise sets that row's status and returns `true`. -/
def update_transaction_status (db : DB) (transaction_hash : String)
    (status : CreditTransactionStatus) : Bool × DB :=
  if db.transactions.any (fun t => decide (t.transaction_hash = some transaction_hash)) then
    (true, { db with transactions := set_status_first transaction_hash status db.transactions })
  else
    (false, db)

/-- The Thirdweb status mapping of `thirdweb_webhook`
(`src/routes/credits/thirdweb.py` lines 157-160). -/
def map_webhook_status (s : String) : CreditTransactionStatus :=
  if s = "COMPLETED" then CreditTransactionStatus.completed else CreditTransactionStatus.pending

/-- The ledger-facing tail of `thirdweb_webhook`
(`src/routes/credits/thirdweb.py` lines 151-175), after signature,
timestamp, type, receiver and token validation have passed and the Base
transaction hash, sender and USD amount have been extracted: if a row with
the hash exists, only its status is set to `completed`; otherwise
`add_credits` is called with the mapped status (and no block number). -/
def thirdweb_webhook_core (db : DB) (transaction_hash : String)
    (webhook_status : String) (sender : String) (amount_usd : ℚ) :
    Except String DB :=
  if db.transactions.any (fun t => decide (t.transaction_hash = some transaction_hash)) then
    .ok (update_transaction_status db transaction_hash CreditTransactionStatus.completed).2
  else
    Except.map Prod.snd
      (add_credits db CreditTransactionProvider.thirdweb sender amount_usd
        (some transaction_hash) none none (map_webhook_status webhook_status))

/-- The resume-point query of `process_base_ltai_transactions`
(`src/routes/credits/ltai.py` lines 39-47): the first row of the
provider-filtered table ordered by `block_number DESC` (PostgreSQL places
NULLs first on DESC), falling back to 0 when that row is missing or its
block number is null. -/
def base_last_block_number (db : DB) : Int :=
  let txs := db.transactions.filter
    (fun t => decide (t.provider = CreditTransactionProvider.libertai))
  match txs with
  | [] => 0
  | t :: ts =>
    if (t :: ts).any (fun u => decide (u.block_number = none)) then 0
    else
      match (t :: ts).filterMap (fun u => u.block_number) with
      | [] => 0
      | b :: bs => bs.foldl max b

/-- The scanned-range start of `process_base_ltai_transactions`
(`src/routes/credits/ltai.py` lines 54-56):
`start_block = max(head - 1000, last_block_number + 1)`. -/
def base_start_block (db : DB) (head : Int) : Int :=
  max (head - 1000) (base_last_block_number db + 1)

/-- Whether a row belongs to one of the Solana poller's two providers
(the `provider.in_` filter of `src/services/solana.py` lines 34-38). -/
def isSolanaProvider (t : CreditTransaction) : Bool :=
  decide (t.provider = CreditTransactionProvider.ltai_solana) ||
  decide (t.provider = CreditTransactionProvider.sol_solana)

/-- SolanaService._get_last_block_from_db (`src/services/solana.py` lines
28-46): the first `block_number` of the provider-filtered rows ordered by
`block_number DESC` (PostgreSQL places NULLs first on DESC), with the
final `result if result else None` mapping both a null and a zero result
to no resume point. -/
def solana_last_block (db : DB) : Option Int :=
  match db.transactions.filter isSolanaProvider with
  | [] => none
  | t :: ts =>
    if (t :: ts).any (fun u => decide (u.block_number = none)) then none
    else
      match (t :: ts).filterMap (fun u => u.block_number) with
      | [] => none
      | b :: bs =>
        if bs.foldl max b = 0 then none else some (bs.foldl max b)

/-- The per-signature admission test of SolanaService.poll_transactions
(`src/services/solana.py` lines 130-131): a signature is skipped exactly
when `last_processed_slot` is truthy (non-None and non-zero) and the
signature's slot does not exceed it. -/
def solanaSlotAdmitted (last : Option Int) (slot : Int) : Bool :=
  match last with
  | none => true
  | some m => if m = 0 then true else decide (m < slot)

/-- Modelled from the spec: the resume point as the spec describes it, the
highest `block_number` among the provider's COMPLETED transactions
(spec §3, Ingestion cursor).  Kept separate from `base_last_block_number`,
which embeds the source query, so the two can be compared. -/
def spec_resume_point_completed (db : DB) : Int :=
  match (db.transactions.filter
      (fun t => decide (t.provider = CreditTransactionProvider.libertai) &&
        decide (t.status = CreditTransactionStatus.completed))).filterMap
      (fun u => u.block_number) with
  | [] => 0
  | b :: bs => bs.foldl max b

/-- The per-event loop of `process_base_ltai_transactions`
(`src/routes/credits/ltai.py` lines 60-65).  `handle` abstracts
`handle_payment_event` (which returns the event's hash or raises); the
`Option String` accumulator is the Python local `transaction_hash`, which
keeps its previous value when `handle` raises (the exception is caught and
logged) and is unbound (`none`) before the first successful event.  The
append sits outside the `try`, so it runs on every iteration; appending an
unbound local raises NameError, which escapes the per-event handler. -/
def process_events_loop {α : Type} (handle : α → Except String String) :
    List α → Option String → Except String (List String)
  | [], _ => .ok []
  | e :: es, curr =>
    let curr2 := match handle e with
      | .ok h => some h
      | .error _ => curr
    match curr2 with
    | none => .error "NameError"
    | some h =>
      match process_events_loop handle es (some h) with
      | .ok hs => .ok (h :: hs)
      | .error err => .error err

/-- The list returned by one Base poll cycle over the fetched events. -/
def process_base_events {α : Type} (handle : α → Except String String)
    (events : List α) : Except String (List String) :=
  process_events_loop handle events none

/-- Modelled from the spec: the hashes of exactly the successfully
processed events (spec §4.2 step 5), for comparison with
`process_base_events`. -/
def successful_hashes {α : Type} (handle : α → Except String String)
    (events : List α) : List String :=
  events.filterMap (fun e => (handle e).toOption)

/-! ### Helper lemmas -/

theorem commitOkB_map (l : List CreditTransaction) (f : CreditTransaction → CreditTransaction) :
    commitOkB l (l.map f) = l.all (fun x => decide (x = f x) || rowOkB (f x)) := by
  induction l with
  | nil => rfl
  | cons x xs ih => simp [commitOkB, List.zip, List.all_cons] at ih ⊢; rw [ih]

theorem insertByExp_perm (t : CreditTransaction) (l : List CreditTransaction) :
    (insertByExp t l).Perm (t :: l) := by
  induction l with
  | nil => exact List.Perm.refl _
  | cons u us ih =>
    rw [insertByExp]
    by_cases h : expKeyLt u.expired_at t.expired_at = true
    · rw [if_pos h]
      exact ((ih.cons u).trans (List.Perm.swap t u us))
    · rw [if_neg h]

theorem sortByExpiry_perm (l : List CreditTransaction) :
    (sortByExpiry l).Perm l := by
  induction l with
  | nil => exact List.Perm.refl _
  | cons t ts ih =>
    exact (insertByExp_perm t (sortByExpiry ts)).trans (ih.cons t)

theorem sumLeft_nonneg (l : List CreditTransaction)
    (h : ∀ t ∈ l, 0 ≤ t.amount_left) : 0 ≤ sumLeft l := by
  induction l with
  | nil => simp [sumLeft]
  | cons t ts ih =>
    have ht := h t (List.mem_cons_self t ts)
    have hts := ih (fun u hu => h u (List.mem_cons_of_mem t hu))
    simp only [sumLeft, List.map_cons, List.sum_cons]
    have : (0:ℚ) ≤ (ts.map (fun t => t.amount_left)).sum := hts
    linarith

theorem sumLeft_eq_zero (l : List CreditTransaction)
    (h : ∀ t ∈ l, t.amount_left = 0) : sumLeft l = 0 := by
  induction l with
  | nil => rfl
  | cons t ts ih =>
    have ht := h t (List.mem_cons_self t ts)
    have hts := ih (fun u hu => h u (List.mem_cons_of_mem t hu))
    simp [sumLeft, List.sum_cons] at hts ⊢
    simp [ht, hts]

theorem drainLoop_first (t : CreditTransaction) (rest : List CreditTransaction) (r : ℚ)
    (h0 : 0 < r) (hr : r ≤ t.amount_left) :
    drainLoop (t :: rest) r = ([(t.id, t.amount_left - r)], 0) := by
  rw [drainLoop]
  rw [if_neg (by simp; linarith)]
  simp only [min_eq_right hr, sub_self]
  rw [if_pos le_rfl]

theorem drainLoop_insufficient (l : List CreditTransaction) (r : ℚ)
    (h0 : ∀ t ∈ l, 0 ≤ t.amount_left) (hlt : sumLeft l < r) :
    drainLoop l r =
      ((l.filter (fun t => decide (0 < t.amount_left))).map (fun t => (t.id, (0:ℚ))), r - sumLeft l) := by
  induction l generalizing r with
  | nil => simp [drainLoop, sumLeft]
  | cons t ts ih =>
    have ht0 : 0 ≤ t.amount_left := h0 t (List.mem_cons_self t ts)
    have hts0 : ∀ u ∈ ts, 0 ≤ u.amount_left := fun u hu => h0 u (List.mem_cons_of_mem t hu)
    have hsum : sumLeft (t :: ts) = t.amount_left + sumLeft ts := by
      simp [sumLeft]
    have hts_nonneg : 0 ≤ sumLeft ts := sumLeft_nonneg ts hts0
    rw [drainLoop]
    by_cases hz : t.amount_left ≤ 0
    · have hzz : t.amount_left = 0 := le_antisymm hz ht0
      rw [if_pos (by simpa using hz)]
      rw [ih r hts0 (by rw [hsum, hzz] at hlt; linarith)]
      have : (decide (0 < t.amount_left)) = false := by simp [hzz]
      simp [List.filter_cons, this, hsum, hzz]
    · push_neg at hz
      rw [if_neg (by simpa using not_le.mpr hz)]
      have hle : t.amount_left ≤ r := by rw [hsum] at hlt; linarith
      simp only [min_eq_left hle, sub_self]
      have hr2 : sumLeft ts < r - t.amount_left := by rw [hsum] at hlt; linarith
      have hr2pos : 0 < r - t.amount_left := lt_of_le_of_lt hts_nonneg hr2
      rw [if_neg (by simpa using not_le.mpr hr2pos)]
      rw [ih (r - t.amount_left) hts0 hr2]
      have : (decide (0 < t.amount_left)) = true := by simp [hz]
      simp [List.filter_cons, this, hsum]
      ring

theorem lookup_map_zero (l : List CreditTransaction) (k : Nat) :
    List.lookup k (l.map (fun t => (t.id, (0:ℚ)))) =
      if (l.map (fun t => t.id)).contains k then some 0 else none := by
  induction l with
  | nil => simp [List.lookup]
  | cons t ts ih =>
    by_cases h : k = t.id
    · simp [List.lookup, h, List.contains_cons]
    · have hb : (k == t.id) = false := by simp [h]
      have hb2 : (t.id == k) = false := by
        simp only [beq_eq_false_iff_ne, ne_eq]
        exact fun hh => h hh.symm
      simp only [List.map_cons, List.lookup, hb, ih, List.contains_cons]
      simp [hb2]

theorem set_status_first_length (h : String) (st : CreditTransactionStatus)
    (l : List CreditTransaction) :
    (set_status_first h st l).length = l.length := by
  induction l with
  | nil => rfl
  | cons t ts ih =>
    rw [set_status_first]
    by_cases hm : t.transaction_hash = some h
    · rw [if_pos hm]; simp
    · rw [if_neg hm]; simp [ih]

theorem set_status_first_mem (h : String) (st : CreditTransactionStatus)
    (l : List CreditTransaction) :
    ∀ t ∈ set_status_first h st l,
      t ∈ l ∨ ∃ u ∈ l, u.transaction_hash = some h ∧ t = { u with status := st } := by
  induction l with
  | nil => simp [set_status_first]
  | cons x xs ih =>
    intro t ht
    rw [set_status_first] at ht
    by_cases hm : x.transaction_hash = some h
    · rw [if_pos hm] at ht
      rcases List.mem_cons.mp ht with hh | hh
      · exact Or.inr ⟨x, List.mem_cons_self x xs, hm, hh⟩
      · exact Or.inl (List.mem_cons_of_mem x hh)
    · rw [if_neg hm] at ht
      rcases List.mem_cons.mp ht with hh | hh
      · exact Or.inl (hh ▸ List.mem_cons_self x xs)
      · rcases ih t hh with h1 | ⟨u, hu, hu2, hu3⟩
        · exact Or.inl (List.mem_cons_of_mem x h1)
        · exact Or.inr ⟨u, List.mem_cons_of_mem x hu, hu2, hu3⟩

theorem set_status_first_hits (h : String) (st : CreditTransactionStatus)
    (l : List CreditTransaction)
    (hex : ∃ t ∈ l, t.transaction_hash = some h) :
    ∃ u ∈ set_status_first h st l, u.transaction_hash = some h ∧ u.status = st := by
  induction l with
  | nil => simp at hex
  | cons x xs ih =>
    rw [set_status_first]
    by_cases hm : x.transaction_hash = some h
    · rw [if_pos hm]
      exact ⟨{ x with status := st }, List.mem_cons_self _ _, hm, rfl⟩
    · rw [if_neg hm]
      obtain ⟨t, ht, ht2⟩ := hex
      rcases List.mem_cons.mp ht with hh | hh
      · exact absurd (hh ▸ ht2) hm
      · obtain ⟨u, hu, hu2, hu3⟩ := ih ⟨t, hh, ht2⟩
        exact ⟨u, List.mem_cons_of_mem x hu, hu2, hu3⟩

theorem set_status_first_idem (h : String) (st : CreditTransactionStatus)
    (l : List CreditTransaction) :
    set_status_first h st (set_status_first h st l) = set_status_first h st l := by
  induction l with
  | nil => rfl
  | cons x xs ih =>
    rw [set_status_first]
    by_cases hm : x.transaction_hash = some h
    · rw [if_pos hm, set_status_first, if_pos hm]
    · rw [if_neg hm, set_status_first, if_neg hm, ih]

theorem set_status_first_any (h : String) (st : CreditTransactionStatus)
    (l : List CreditTransaction)
    (hex : (l.any (fun t => decide (t.transaction_hash = some h))) = true) :
    ((set_status_first h st l).any (fun t => decide (t.transaction_hash = some h))) = true := by
  induction l with
  | nil => simp at hex
  | cons x xs ih =>
    rw [set_status_first]
    by_cases hm : x.transaction_hash = some h
    · rw [if_pos hm]
      simp [hm]
    · rw [if_neg hm]
      simp only [List.any_cons, Bool.or_eq_true, decide_eq_true_eq] at hex ⊢
      rcases hex with hh | hh
      · exact absurd hh hm
      · exact Or.inr (ih hh)

theorem foldl_max_le (b : Int) (l : List Int) :
    b ≤ l.foldl max b ∧ ∀ x ∈ l, x ≤ l.foldl max b := by
  induction l generalizing b with
  | nil => simp
  | cons y ys ih =>
    obtain ⟨h1, h2⟩ := ih (max b y)
    rw [List.foldl_cons]
    refine ⟨le_trans (le_max_left b y) h1, ?_⟩
    intro x hx
    rcases List.mem_cons.mp hx with hh | hh
    · rw [hh]; exact le_trans (le_max_right b y) h1
    · exact h2 x hh

theorem foldl_max_mem (b : Int) (l : List Int) :
    l.foldl max b = b ∨ l.foldl max b ∈ l := by
  induction l generalizing b with
  | nil => simp
  | cons y ys ih =>
    rw [List.foldl_cons]
    rcases ih (max b y) with hh | hh
    · rcases max_choice b y with hc | hc
      · rw [hc] at hh ⊢; exact Or.inl hh
      · rw [hc] at hh ⊢
        exact Or.inr (by rw [hh]; exact List.mem_cons_self y ys)
    · exact Or.inr (List.mem_cons_of_mem y hh)

/-! ### Claim theorems -/

/-- C1 (amended): for every address and every non-null, non-empty
`transaction_hash`, if a CreditTransaction with that hash already exists,
`add_credits` returns `False` and leaves the ledger completely unchanged;
consequently calling `add_credits` twice with the same non-empty hash
stores exactly one more transaction with that hash and the second call
returns failure.  (For the empty-string hash — non-null but falsy in
Python — the duplicate guard is skipped and a duplicate call raises a
database uniqueness error instead of returning `False`; see the
counterexample.) -/
theorem add_credits_duplicate_guard (db : DB) (p : CreditTransactionProvider)
    (addr : String) (a : ℚ) (h : String) (bn ea : Option Int)
    (st : CreditTransactionStatus) (hne : h ≠ "") :
    ((db.transactions.any (fun t => decide (t.transaction_hash = some h))) = true →
      add_credits db p addr a (some h) bn ea st = .ok (false, db)) ∧
    (∀ db1, add_credits db p addr a (some h) bn ea st = .ok (true, db1) →
      add_credits db1 p addr a (some h) bn ea st = .ok (false, db1) ∧
      db1.transactions.countP (fun t => decide (t.transaction_hash = some h)) =
        db.transactions.countP (fun t => decide (t.transaction_hash = some h)) + 1) := by
  have htr : truthyHash (some h) = true := by simp [truthyHash, hne]
  constructor
  · intro hex
    simp only [add_credits, htr, hex, Bool.true_and, if_true]
  · intro db1 hok
    simp only [add_credits, htr, Bool.true_and] at hok
    by_cases hdup : (db.transactions.any (fun t => decide (t.transaction_hash = some h))) = true
    · rw [if_pos hdup] at hok
      simp at hok
    · rw [if_neg hdup] at hok
      set tx : CreditTransaction :=
        { id := db.nextId, transaction_hash := some h, address := addr,
          amount := adjustAmount p a, amount_left := adjustAmount p a, provider := p,
          block_number := bn, expired_at := ea, is_active := true, status := st } with htx
      by_cases hins : (rowOkB tx && providerBlockOkB tx && hashUniqueOkB db tx) = true
      · rw [if_pos hins] at hok
        simp only [Except.ok.injEq, Prod.mk.injEq, true_and] at hok
        subst hok
        constructor
        · have hex1 : ((db.transactions ++ [tx]).any
              (fun t => decide (t.transaction_hash = some h))) = true := by
            simp [htx, List.any_append]
          simp [add_credits, htr, hex1]
        · simp [htx, List.countP_append, List.countP_cons]
      · rw [if_neg hins] at hok
        simp at hok

/-- A stored transaction carrying the hash `0xabc`, for the C1 witness. -/
def c1wtx : CreditTransaction :=
  { id := 0
    transaction_hash := some "0xabc"
    address := "addr1"
    amount := 5
    amount_left := 5
    provider := CreditTransactionProvider.voucher
    block_number := none
    expired_at := none
    is_active := true
    status := CreditTransactionStatus.completed }

/-- Witness instantiation of the C1 theorem at a ledger that already holds
the hash. -/
def c1wdb : DB :=
  { users := ["addr1"], transactions := [c1wtx], nextId := 1 }

/-- C1 witness: a duplicate non-empty hash makes `add_credits` return
`False` with the ledger untouched. -/
theorem add_credits_duplicate_guard_witness :
    add_credits c1wdb CreditTransactionProvider.voucher "addr1" 5 (some "0xabc")
      none none CreditTransactionStatus.completed = .ok (false, c1wdb) :=
  (add_credits_duplicate_guard c1wdb CreditTransactionProvider.voucher "addr1" 5 "0xabc"
    none none CreditTransactionStatus.completed (by decide)).1 (by decide)

/-- The transaction row stored by crediting 5 with the empty-string hash. -/
def c1xtx : CreditTransaction :=
  { id := 0
    transaction_hash := some ""
    address := "addr1"
    amount := 5
    amount_left := 5
    provider := CreditTransactionProvider.voucher
    block_number := none
    expired_at := none
    is_active := true
    status := CreditTransactionStatus.completed }

/-- The ledger produced by crediting 5 with the empty-string hash. -/
def c1xdb : DB :=
  { users := ["addr1"], transactions := [c1xtx], nextId := 1 }

/-- C1 counterexample: with the empty-string hash — non-null, so inside
the claim's quantifier — a transaction with that hash exists, yet the
second `add_credits` call does not return `False`: the Python truthiness
test skips the duplicate guard and the insert raises the database
uniqueness error. -/
theorem add_credits_empty_hash_counterexample :
    add_credits { users := [], transactions := [], nextId := 0 }
        CreditTransactionProvider.voucher "addr1" 5 (some "") none none
        CreditTransactionStatus.completed = .ok (true, c1xdb) ∧
    (c1xdb.transactions.any (fun t => decide (t.transaction_hash = some ""))) = true ∧
    add_credits c1xdb CreditTransactionProvider.voucher "addr1" 5 (some "") none none
        CreditTransactionStatus.completed = .error "IntegrityError" :=
  ⟨rfl, by decide, rfl⟩

/-- C10: `update_transaction_status` returns `False` and changes nothing
when no transaction with the hash exists; when one exists it returns
`True` and sets that transaction's status to exactly the given value with
no transition discipline (any prior status, any new status); repeating the
same call is a no-op leaving the state identical to one call; and no row
is ever added or removed. -/
theorem update_transaction_status_semantics (db : DB) (h : String)
    (st : CreditTransactionStatus) :
    ((∀ t ∈ db.transactions, t.transaction_hash ≠ some h) →
      update_transaction_status db h st = (false, db)) ∧
    (∀ t ∈ db.transactions, t.transaction_hash = some h →
      (update_transaction_status db h st).1 = true ∧
      ∃ u ∈ (update_transaction_status db h st).2.transactions,
        u.transaction_hash = some h ∧ u.status = st) ∧
    update_transaction_status (update_transaction_status db h st).2 h st =
      update_transaction_status db h st ∧
    (update_transaction_status db h st).2.transactions.length =
      db.transactions.length := by
  refine ⟨?_, ?_, ?_, ?_⟩
  · intro hnone
    rw [update_transaction_status, if_neg]
    simp only [List.any_eq_true, decide_eq_true_eq, not_exists]
    intro t
    intro hcontra
    exact absurd hcontra.2 (hnone t hcontra.1)
  · intro t ht heq
    have hany : (db.transactions.any (fun t => decide (t.transaction_hash = some h))) = true := by
      simp only [List.any_eq_true, decide_eq_true_eq]
      exact ⟨t, ht, heq⟩
    rw [update_transaction_status, if_pos hany]
    exact ⟨rfl, set_status_first_hits h st db.transactions ⟨t, ht, heq⟩⟩
  · by_cases hany : (db.transactions.any (fun t => decide (t.transaction_hash = some h))) = true
    · have hany2 := set_status_first_any h st db.transactions hany
      simp only [update_transaction_status, if_pos hany]
      simp only [if_pos hany2, set_status_first_idem]
    · have h1 : update_transaction_status db h st = (false, db) := by
        rw [update_transaction_status, if_neg hany]
      rw [h1]
      exact h1
  · by_cases hany : (db.transactions.any (fun t => decide (t.transaction_hash = some h))) = true
    · rw [update_transaction_status, if_pos hany]
      exact set_status_first_length h st db.transactions
    · rw [update_transaction_status, if_neg hany]

/-- A stored transaction for the C10 witness ledger. -/
def c10tx : CreditTransaction :=
  { id := 0
    transaction_hash := some "0xdef"
    address := "addr2"
    amount := 7
    amount_left := 7
    provider := CreditTransactionProvider.thirdweb
    block_number := none
    expired_at := none
    is_active := true
    status := CreditTransactionStatus.completed }

/-- Witness ledger for the C10 theorem. -/
def c10db : DB :=
  { users := ["addr2"], transactions := [c10tx], nextId := 1 }

/-- C10 witness: a missing hash yields `False` and an unchanged ledger. -/
theorem update_transaction_status_semantics_witness :
    update_transaction_status c10db "0xmissing" CreditTransactionStatus.pending =
      (false, c10db) :=
  (update_transaction_status_semantics c10db "0xmissing"
    CreditTransactionStatus.pending).1 (by decide)

/-- C2: for every transaction in the ledger, `0 ≤ amount_left ≤ amount`
holds before and after any `use_credits` call, for any address and any
requested amount: assuming the bounds on the starting ledger, any ledger
returned by `use_credits` satisfies them again (a commit that would break
a check constraint raises instead, leaving the persisted state unchanged). -/
theorem use_credits_preserves_invariant (db : DB) (addr : String) (amount : ℚ)
    (hinv : ∀ t ∈ db.transactions, 0 ≤ t.amount_left ∧ t.amount_left ≤ t.amount)
    (b : Bool) (db1 : DB)
    (hok : use_credits db addr amount = .ok (b, db1)) :
    ∀ t ∈ db1.transactions, 0 ≤ t.amount_left ∧ t.amount_left ≤ t.amount := by
  simp only [use_credits] at hok
  set us := (drainLoop (sortByExpiry (db.transactions.filter (eligibleFor addr))) amount).1
    with hus
  by_cases hc : commitOkB db.transactions (applyUpdates db.transactions us) = true
  · rw [if_pos hc] at hok
    simp only [Except.ok.injEq, Prod.mk.injEq] at hok
    obtain ⟨hb, hdb⟩ := hok
    subst hdb
    intro t ht
    have ht2 : t ∈ db.transactions.map (updateOne us) := ht
    obtain ⟨x, hx, hxe⟩ := List.mem_map.mp ht2
    simp only [applyUpdates] at hc
    rw [commitOkB_map] at hc
    have hall := List.all_eq_true.mp hc x hx
    simp only [Bool.or_eq_true] at hall
    rcases hall with heq | hrow
    · have hxx : x = updateOne us x := of_decide_eq_true heq
      rw [← hxe, ← hxx]
      exact hinv x hx
    · rw [← hxe]
      simp only [rowOkB, Bool.and_eq_true, decide_eq_true_eq] at hrow
      exact ⟨hrow.1.2, hrow.2⟩
  · rw [if_neg hc] at hok
    simp at hok

/-- A fully-consumed transaction for the C2 witness ledger. -/
def c2tx : CreditTransaction :=
  { id := 0
    transaction_hash := none
    address := "addr3"
    amount := 5
    amount_left := 0
    provider := CreditTransactionProvider.voucher
    block_number := none
    expired_at := none
    is_active := true
    status := CreditTransactionStatus.completed }

/-- Witness ledger for the C2 theorem. -/
def c2db : DB :=
  { users := ["addr3"], transactions := [c2tx], nextId := 1 }

/-- C2 witness: after a concrete `use_credits` call the stored transaction
still satisfies the amount bounds. -/
theorem use_credits_preserves_invariant_witness :
    0 ≤ c2tx.amount_left ∧ c2tx.amount_left ≤ c2tx.amount :=
  use_credits_preserves_invariant c2db "addr3" 3 (by decide) true c2db rfl c2tx (by decide)

/-- C5: `get_balance` equals the sum of `amount_left` over exactly the
address's transactions with `is_active = true` and `status = completed`
(pending, error and inactive rows contribute nothing, being excluded by
the filter), and an address with no User row gets balance 0.  The
foreign-key hypothesis states that every stored transaction's address has
a User row, as the schema enforces. -/
theorem get_balance_spec (db : DB) (addr : String)
    (hfk : ∀ t ∈ db.transactions, t.address ∈ db.users) :
    get_balance db addr =
      sumLeft (db.transactions.filter (fun t => decide (t.address = addr) &&
        t.is_active && decide (t.status = CreditTransactionStatus.completed))) ∧
    (db.users.contains addr = false → get_balance db addr = 0) := by
  constructor
  · by_cases hu : db.users.contains addr = true
    · rw [get_balance, if_pos hu]
      rfl
    · rw [get_balance, if_neg hu]
      have hempty : db.transactions.filter (fun t => decide (t.address = addr) &&
          t.is_active && decide (t.status = CreditTransactionStatus.completed)) = [] := by
        rw [List.filter_eq_nil_iff]
        intro t ht hcontra
        simp only [Bool.and_eq_true, decide_eq_true_eq] at hcontra
        have hmem : addr ∈ db.users := hcontra.1.1 ▸ hfk t ht
        exact hu (List.elem_iff.mpr hmem)
      rw [hempty]
      rfl
  · intro hfalse
    have hne : ¬(db.users.contains addr = true) := by
      rw [hfalse]
      exact Bool.false_ne_true
    rw [get_balance, if_neg hne]

/-- Witness rows for the C5 theorem: one eligible transaction and one
pending one. -/
def c5tx1 : CreditTransaction :=
  { id := 0
    transaction_hash := none
    address := "addr5"
    amount := 5
    amount_left := 3
    provider := CreditTransactionProvider.voucher
    block_number := none
    expired_at := none
    is_active := true
    status := CreditTransactionStatus.completed }

/-- A pending transaction excluded from the C5 witness balance. -/
def c5tx2 : CreditTransaction :=
  { id := 1
    transaction_hash := some "0xp"
    address := "addr5"
    amount := 9
    amount_left := 9
    provider := CreditTransactionProvider.thirdweb
    block_number := none
    expired_at := none
    is_active := true
    status := CreditTransactionStatus.pending }

/-- Witness ledger for the C5 theorem. -/
def c5db : DB :=
  { users := ["addr5"], transactions := [c5tx1, c5tx2], nextId := 2 }

/-- C5 witness: the balance of a concrete ledger is the filtered sum. -/
theorem get_balance_spec_witness :
    get_balance c5db "addr5" =
      sumLeft (c5db.transactions.filter (fun t => decide (t.address = "addr5") &&
        t.is_active && decide (t.status = CreditTransactionStatus.completed))) :=
  (get_balance_spec c5db "addr5" (by decide)).1

/-- C6: `add_credits` applies the provider adjustment before persisting:
the LTAI native-token provider multiplies the amount by 100/80 and every
other provider stores the given amount exactly; the inserted row has
`amount_left = amount`, `is_active = true` and the given status. -/
theorem add_credits_provider_adjustment (db : DB) (p : CreditTransactionProvider)
    (addr : String) (a : ℚ) (hash : Option String) (bn ea : Option Int)
    (st : CreditTransactionStatus) (ha : 0 ≤ a)
    (hpb : p = CreditTransactionProvider.thirdweb ∨
      p = CreditTransactionProvider.voucher ∨ bn ≠ none)
    (hdup : ∀ h0, hash = some h0 →
      (db.transactions.any (fun t => decide (t.transaction_hash = some h0))) = false) :
    add_credits db p addr a hash bn ea st =
      .ok (true,
        { users := ensure_user db.users addr
          transactions := db.transactions ++
            [{ id := db.nextId
               transaction_hash := hash
               address := addr
               amount := adjustAmount p a
               amount_left := adjustAmount p a
               provider := p
               block_number := bn
               expired_at := ea
               is_active := true
               status := st }]
          nextId := db.nextId + 1 }) ∧
    adjustAmount CreditTransactionProvider.libertai a = a * 100 / 80 ∧
    (p ≠ CreditTransactionProvider.libertai → adjustAmount p a = a) := by
  have hadj : 0 ≤ adjustAmount p a := by
    rw [adjustAmount]
    split
    · exact div_nonneg (mul_nonneg ha (by norm_num)) (by norm_num)
    · exact ha
  refine ⟨?_, by rw [adjustAmount]; simp, fun hp => by rw [adjustAmount, if_neg hp]⟩
  set tx : CreditTransaction :=
    { id := db.nextId
      transaction_hash := hash
      address := addr
      amount := adjustAmount p a
      amount_left := adjustAmount p a
      provider := p
      block_number := bn
      expired_at := ea
      is_active := true
      status := st } with htx
  have hcond : (truthyHash hash &&
      db.transactions.any (fun t => decide (t.transaction_hash = hash))) = false := by
    cases hash with
    | none => rfl
    | some h0 =>
      by_cases he : h0 = ""
      · subst he
        simp [truthyHash]
      · simp [truthyHash, he, hdup h0 rfl]
  have hrow : rowOkB tx = true := by
    rw [htx]
    simp [rowOkB, hadj]
  have hpbB : providerBlockOkB tx = true := by
    rw [htx]
    rcases hpb with hp | hp | hp
    · simp [providerBlockOkB, hp]
    · simp [providerBlockOkB, hp]
    · cases p <;> simp [providerBlockOkB, hp]
  have huniq : hashUniqueOkB db tx = true := by
    rw [htx]
    cases hhash : hash with
    | none => simp [hashUniqueOkB]
    | some h0 => simp [hashUniqueOkB, hdup h0 hhash]
  simp only [add_credits, ← htx]
  rw [if_neg (by simp [hcond]), if_pos (by simp [hrow, hpbB, huniq])]

/-- C6 witness: a concrete non-LTAI credit stores the amount unadjusted. -/
theorem add_credits_provider_adjustment_witness :
    add_credits { users := [], transactions := [], nextId := 0 }
        CreditTransactionProvider.thirdweb "addr6" 9 (some "0xw") none none
        CreditTransactionStatus.pending =
      .ok (true,
        { users := ensure_user [] "addr6"
          transactions := [] ++
            [{ id := 0
               transaction_hash := some "0xw"
               address := "addr6"
               amount := adjustAmount CreditTransactionProvider.thirdweb 9
               amount_left := adjustAmount CreditTransactionProvider.thirdweb 9
               provider := CreditTransactionProvider.thirdweb
               block_number := none
               expired_at := none
               is_active := true
               status := CreditTransactionStatus.pending }]
          nextId := 1 }) :=
  (add_credits_provider_adjustment { users := [], transactions := [], nextId := 0 }
    CreditTransactionProvider.thirdweb "addr6" 9 (some "0xw") none none
    CreditTransactionStatus.pending (by decide) (Or.inl rfl) (fun h0 _ => rfl)).1

/-- C9: for every verified, filtered Thirdweb webhook delivery, if a
transaction with the delivery's hash already exists the handler only sets
that transaction's status to `completed` and stops — `add_credits` is
never reached, no row is added, and every resulting row is either an
original row or the matched row with its status set to `completed`; if no
such transaction exists the handler calls `add_credits` with status
`completed` exactly when the webhook status is the string COMPLETED and
`pending` for any other webhook status. -/
theorem thirdweb_webhook_upsert (db : DB) (h s sender : String) (amt : ℚ) :
    ((db.transactions.any (fun t => decide (t.transaction_hash = some h))) = true →
      thirdweb_webhook_core db h s sender amt =
        .ok (update_transaction_status db h CreditTransactionStatus.completed).2 ∧
      (update_transaction_status db h
        CreditTransactionStatus.completed).2.transactions.length =
        db.transactions.length ∧
      ∀ t ∈ (update_transaction_status db h
          CreditTransactionStatus.completed).2.transactions,
        t ∈ db.transactions ∨ ∃ u ∈ db.transactions, u.transaction_hash = some h ∧
          t = { u with status := CreditTransactionStatus.completed }) ∧
    ((db.transactions.any (fun t => decide (t.transaction_hash = some h))) = false →
      thirdweb_webhook_core db h s sender amt =
        Except.map Prod.snd (add_credits db CreditTransactionProvider.thirdweb sender amt
          (some h) none none
          (if s = "COMPLETED" then CreditTransactionStatus.completed
           else CreditTransactionStatus.pending))) := by
  constructor
  · intro hex
    refine ⟨?_, ?_, ?_⟩
    · rw [thirdweb_webhook_core, if_pos hex]
    · rw [update_transaction_status, if_pos hex]
      exact set_status_first_length _ _ _
    · rw [update_transaction_status, if_pos hex]
      exact set_status_first_mem _ _ _
  · intro hex
    have hne : ¬((db.transactions.any
        (fun t => decide (t.transaction_hash = some h))) = true) := by
      rw [hex]
      exact Bool.false_ne_true
    rw [thirdweb_webhook_core, if_neg hne]
    rfl

/-- A stored pending transaction for the C9 witness ledger. -/
def c9tx : CreditTransaction :=
  { id := 0
    transaction_hash := some "0xt"
    address := "addr9"
    amount := 4
    amount_left := 4
    provider := CreditTransactionProvider.thirdweb
    block_number := none
    expired_at := none
    is_active := true
    status := CreditTransactionStatus.pending }

/-- Witness ledger for the C9 theorem. -/
def c9db : DB :=
  { users := ["addr9"], transactions := [c9tx], nextId := 1 }

/-- C9 witness: a re-delivered hash only updates the stored status. -/
theorem thirdweb_webhook_upsert_witness :
    thirdweb_webhook_core c9db "0xt" "PENDING" "addr9" 4 =
      .ok (update_transaction_status c9db "0xt" CreditTransactionStatus.completed).2 :=
  ((thirdweb_webhook_upsert c9db "0xt" "PENDING" "addr9" 4).1 (by decide)).1

/-- C7 (amended): each on-chain poller recovers its resume point from the
ledger as the highest `block_number` among its own providers' transactions
of ANY status — not only completed ones.  Base poller: with no prior
transaction of its provider the scan starts from the chain head minus the
1000-block margin, and with a resume point it starts at
`max(head - 1000, resume + 1)`, strictly after the resume point.  Solana
poller: whenever its query yields a resume point, that point is the
greatest block among the `ltai_solana`/`sol_solana` rows of any status
(and never the falsy zero); with no resume point every fetched signature
is admitted, and with one exactly the signatures with slots strictly above
it are admitted — so neither poller ever re-scans an overlap below its
resume point. -/
theorem chain_poller_resume_points (db : DB) (head : Int) :
    ((∀ t ∈ db.transactions, t.provider = CreditTransactionProvider.libertai →
        t.block_number ≠ none) →
      (∀ t ∈ db.transactions, t.provider = CreditTransactionProvider.libertai →
        ∀ b, t.block_number = some b → b ≤ base_last_block_number db) ∧
      ((∃ t ∈ db.transactions, t.provider = CreditTransactionProvider.libertai) →
        ∃ t ∈ db.transactions, t.provider = CreditTransactionProvider.libertai ∧
          t.block_number = some (base_last_block_number db))) ∧
    ((∀ t ∈ db.transactions, t.provider ≠ CreditTransactionProvider.libertai) →
      1001 ≤ head → base_start_block db head = head - 1000) ∧
    base_last_block_number db < base_start_block db head ∧
    (∀ m, solana_last_block db = some m →
      (∃ t ∈ db.transactions, isSolanaProvider t = true ∧ t.block_number = some m) ∧
      (∀ t ∈ db.transactions, isSolanaProvider t = true →
        ∀ b, t.block_number = some b → b ≤ m)) ∧
    (∀ slot, solanaSlotAdmitted none slot = true) ∧
    (∀ m slot, m ≠ 0 → (solanaSlotAdmitted (some m) slot = true ↔ m < slot)) ∧
    solana_last_block db ≠ some 0 := by
  have hsol : ∀ m, solana_last_block db = some m → m ≠ 0 ∧
      (∃ t ∈ db.transactions, isSolanaProvider t = true ∧ t.block_number = some m) ∧
      (∀ t ∈ db.transactions, isSolanaProvider t = true →
        ∀ b, t.block_number = some b → b ≤ m) := by
    intro m hm
    cases hfil : db.transactions.filter isSolanaProvider with
    | nil =>
      simp [solana_last_block, hfil] at hm
    | cons t0 ts0 =>
      simp only [solana_last_block, hfil] at hm
      by_cases hanyn : ((t0 :: ts0).any (fun u => decide (u.block_number = none))) = true
      · rw [if_pos hanyn] at hm
        cases hm
      · rw [if_neg hanyn] at hm
        cases hfm : (t0 :: ts0).filterMap (fun u => u.block_number) with
        | nil =>
          simp [hfm] at hm
        | cons b bs =>
          simp only [hfm] at hm
          by_cases h0 : bs.foldl max b = 0
          · rw [if_pos h0] at hm
            cases hm
          · rw [if_neg h0] at hm
            have hm2 : bs.foldl max b = m := by
              injection hm
            refine ⟨by rw [← hm2]; exact h0, ?_, ?_⟩
            · have hin : m ∈ (t0 :: ts0).filterMap (fun u => u.block_number) := by
                rw [hfm, ← hm2]
                rcases foldl_max_mem b bs with hh | hh
                · rw [hh]
                  exact List.mem_cons_self _ _
                · exact List.mem_cons_of_mem _ hh
              obtain ⟨u, hu, hub⟩ := List.mem_filterMap.mp hin
              have hu2 : u ∈ db.transactions.filter isSolanaProvider := by
                rw [hfil]
                exact hu
              obtain ⟨hu3, hu4⟩ := List.mem_filter.mp hu2
              exact ⟨u, hu3, hu4, hub⟩
            · intro t ht hp b2 hb2
              have hmem : t ∈ t0 :: ts0 := by
                rw [← hfil]
                exact List.mem_filter.mpr ⟨ht, hp⟩
              have hbmem : b2 ∈ (t0 :: ts0).filterMap (fun u => u.block_number) :=
                List.mem_filterMap.mpr ⟨t, hmem, hb2⟩
              rw [hfm] at hbmem
              rw [← hm2]
              rcases List.mem_cons.mp hbmem with hh | hh
              · rw [hh]
                exact (foldl_max_le b bs).1
              · exact (foldl_max_le b bs).2 b2 hh
  refine ⟨?_, ?_, ?_, fun m hm => ⟨(hsol m hm).2.1, (hsol m hm).2.2⟩,
    fun slot => rfl, ?_, fun hm => (hsol 0 hm).1 rfl⟩
  · intro hsome
    cases hfil : db.transactions.filter
        (fun t => decide (t.provider = CreditTransactionProvider.libertai)) with
    | nil =>
      constructor
      · intro t ht hp b hb
        have hmem : t ∈ db.transactions.filter
            (fun t => decide (t.provider = CreditTransactionProvider.libertai)) :=
          List.mem_filter.mpr ⟨ht, by simp [hp]⟩
        rw [hfil] at hmem
        simp at hmem
      · rintro ⟨t, ht, hp⟩
        have hmem : t ∈ db.transactions.filter
            (fun t => decide (t.provider = CreditTransactionProvider.libertai)) :=
          List.mem_filter.mpr ⟨ht, by simp [hp]⟩
        rw [hfil] at hmem
        simp at hmem
    | cons t0 ts0 =>
      have hsub : ∀ u ∈ t0 :: ts0, u ∈ db.transactions ∧
          u.provider = CreditTransactionProvider.libertai := by
        intro u hu
        have hu2 : u ∈ db.transactions.filter
            (fun t => decide (t.provider = CreditTransactionProvider.libertai)) := by
          rw [hfil]
          exact hu
        obtain ⟨hu3, hu4⟩ := List.mem_filter.mp hu2
        exact ⟨hu3, of_decide_eq_true hu4⟩
      have hanyn : ((t0 :: ts0).any (fun u => decide (u.block_number = none))) = false := by
        rw [List.any_eq_false]
        intro u hu
        obtain ⟨hu1, hu2⟩ := hsub u hu
        simp only [decide_eq_true_eq]
        exact hsome u hu1 hu2
      obtain ⟨ht0mem, ht0p⟩ := hsub t0 (List.mem_cons_self t0 ts0)
      obtain ⟨b0, hb0⟩ := Option.ne_none_iff_exists'.mp (hsome t0 ht0mem ht0p)
      have hval : base_last_block_number db =
          (ts0.filterMap (fun u => u.block_number)).foldl max b0 := by
        simp [base_last_block_number, hfil, hanyn, List.filterMap_cons, hb0]
      constructor
      · intro t ht hp b hb
        have hmem : t ∈ t0 :: ts0 := by
          rw [← hfil]
          exact List.mem_filter.mpr ⟨ht, by simp [hp]⟩
        have hbmem : b ∈ (t0 :: ts0).filterMap (fun u => u.block_number) :=
          List.mem_filterMap.mpr ⟨t, hmem, hb⟩
        rw [List.filterMap_cons, hb0] at hbmem
        rw [hval]
        rcases List.mem_cons.mp hbmem with hh | hh
        · rw [hh]
          exact (foldl_max_le b0 (ts0.filterMap (fun u => u.block_number))).1
        · exact (foldl_max_le b0 (ts0.filterMap (fun u => u.block_number))).2 b hh
      · intro _
        have hin : base_last_block_number db ∈
            (t0 :: ts0).filterMap (fun u => u.block_number) := by
          rw [List.filterMap_cons, hb0]
          rcases foldl_max_mem b0 (ts0.filterMap (fun u => u.block_number)) with hh | hh
          · rw [hval, hh]
            exact List.mem_cons_self _ _
          · rw [hval]
            exact List.mem_cons_of_mem _ hh
        obtain ⟨u, hu, hub⟩ := List.mem_filterMap.mp hin
        obtain ⟨hu1, hu2⟩ := hsub u hu
        exact ⟨u, hu1, hu2, hub⟩
  · intro hnone hhead
    have hfil : db.transactions.filter
        (fun t => decide (t.provider = CreditTransactionProvider.libertai)) = [] := by
      rw [List.filter_eq_nil_iff]
      intro t ht hdec
      exact (hnone t ht) (of_decide_eq_true hdec)
    have h0 : base_last_block_number db = 0 := by
      simp [base_last_block_number, hfil]
    rw [base_start_block, h0]
    rw [max_eq_left (by linarith)]
  · have h1 : base_last_block_number db < base_last_block_number db + 1 := lt_add_one _
    exact lt_of_lt_of_le h1 (le_max_right _ _)
  · intro m slot hm0
    simp only [solanaSlotAdmitted]
    rw [if_neg hm0]
    exact decide_eq_true_iff

/-- A completed Base transaction at block 100 for the C7 ledgers. -/
def c7tx1 : CreditTransaction :=
  { id := 0
    transaction_hash := some "0xb1"
    address := "addr7"
    amount := 1
    amount_left := 1
    provider := CreditTransactionProvider.libertai
    block_number := some 100
    expired_at := none
    is_active := true
    status := CreditTransactionStatus.completed }

/-- An errored Base transaction at block 500 for the C7 ledgers. -/
def c7tx2 : CreditTransaction :=
  { id := 1
    transaction_hash := some "0xb2"
    address := "addr7"
    amount := 1
    amount_left := 1
    provider := CreditTransactionProvider.libertai
    block_number := some 500
    expired_at := none
    is_active := true
    status := CreditTransactionStatus.error }

/-- Ledger with a completed transaction at block 100 and an errored one at
block 500, both of the Base provider. -/
def c7db : DB :=
  { users := ["addr7"], transactions := [c7tx1, c7tx2], nextId := 2 }

/-- C7 counterexample: with a completed transaction at block 100 and an
errored one at block 500, the claim's resume point (highest block among
COMPLETED transactions) is 100, but the code resumes from 500 — the query
does not filter by status — and the scanned range starts at 501, strictly
above the resume point rather than overlapping below it. -/
theorem base_resume_counterexample :
    c7tx2.status ≠ CreditTransactionStatus.completed ∧
    spec_resume_point_completed c7db = 100 ∧
    base_last_block_number c7db = 500 ∧
    base_start_block c7db 600 = 501 ∧
    ¬(base_start_block c7db 600 ≤ base_last_block_number c7db) := by decide

/-- A completed Solana transaction at slot 77 for the C7 witness ledger. -/
def c7stx1 : CreditTransaction :=
  { id := 2
    transaction_hash := some "sig1"
    address := "addr7"
    amount := 1
    amount_left := 1
    provider := CreditTransactionProvider.ltai_solana
    block_number := some 77
    expired_at := none
    is_active := true
    status := CreditTransactionStatus.completed }

/-- An errored Solana transaction at slot 99 for the C7 witness ledger. -/
def c7stx2 : CreditTransaction :=
  { id := 3
    transaction_hash := some "sig2"
    address := "addr7"
    amount := 1
    amount_left := 1
    provider := CreditTransactionProvider.sol_solana
    block_number := some 99
    expired_at := none
    is_active := true
    status := CreditTransactionStatus.error }

/-- Witness ledger holding rows of both pollers' providers. -/
def c7sdb : DB :=
  { users := ["addr7"], transactions := [c7tx1, c7tx2, c7stx1, c7stx2], nextId := 4 }

/-- C7 witness: on the combined ledger the Base resume point is attained
by one of the provider's rows, and the Solana resume point 99 is attained
by an errored Solana row — both regardless of status. -/
theorem chain_poller_resume_points_witness :
    (∃ t ∈ c7sdb.transactions, t.provider = CreditTransactionProvider.libertai ∧
      t.block_number = some (base_last_block_number c7sdb)) ∧
    (∃ t ∈ c7sdb.transactions, isSolanaProvider t = true ∧
      t.block_number = some 99) :=
  ⟨((chain_poller_resume_points c7sdb 600).1 (by decide)).2 (by decide),
   ((chain_poller_resume_points c7sdb 600).2.2.2.1 99 (by decide)).1⟩

/-- The per-event handler of the C8 scenario: event 0 succeeds with hash
0xa and every other event raises. -/
def c8_handle : Nat → Except String String :=
  fun n => if n = 0 then .ok "0xa" else .error "boom"

/-- C8 (code bug, evaluated at the failing input): in
`process_base_ltai_transactions` the `processed_transactions.append` sits
outside the per-event `try`, so with events `[0, 1]` — where event 1's
processing raises — the poll returns `["0xa", "0xa"]`, the stale hash
appended again for the failed event, instead of the successful hashes
`["0xa"]`; and with events `[1, 0]` — the first event failing — the loop
raises NameError on the unbound local and the batch aborts, instead of
returning `["0xa"]`. -/
theorem base_poll_append_outside_try :
    process_base_events c8_handle [0, 1] = .ok ["0xa", "0xa"] ∧
    successful_hashes c8_handle [0, 1] = ["0xa"] ∧
    process_base_events c8_handle [1, 0] = .error "NameError" ∧
    successful_hashes c8_handle [1, 0] = ["0xa"] :=
  ⟨rfl, rfl, rfl, rfl⟩

/-- The table obtained by subtracting `d` from the `amount_left` of the
single row with the given id and leaving every other row untouched; used
to state what the expiry-ordered deduction must produce. -/
def debitOnly (target : Nat) (d : ℚ) (txs : List CreditTransaction) :
    List CreditTransaction :=
  txs.map (fun t => if t.id = target then { t with amount_left := t.amount_left - d } else t)

/-- C3: `use_credits` deducts from the address's active completed
transactions in order of `expired_at` ascending with nulls last: for a
ledger holding exactly one expiring and one never-expiring such
transaction, stored in either order, a positive debit smaller than the
expiring one's `amount_left` reduces only the expiring transaction and
leaves the never-expiring one untouched. -/
theorem use_credits_expiring_first (e n : CreditTransaction) (db : DB) (d : ℚ) (te : Int)
    (he_exp : e.expired_at = some te) (hn_exp : n.expired_at = none)
    (he_act : e.is_active = true) (he_st : e.status = CreditTransactionStatus.completed)
    (hn_act : n.is_active = true) (hn_st : n.status = CreditTransactionStatus.completed)
    (hn_addr : n.address = e.address)
    (hne : n.id ≠ e.id)
    (hd0 : 0 < d) (hdlt : d < e.amount_left) (heb : e.amount_left ≤ e.amount)
    (hdb : db.transactions = [e, n] ∨ db.transactions = [n, e]) :
    use_credits db e.address d =
      .ok (true, { db with transactions := debitOnly e.id d db.transactions }) := by
  have h0al : 0 < e.amount_left := lt_trans hd0 hdlt
  have hbeq : (n.id == e.id) = false := by
    simp only [beq_eq_false_iff_ne, ne_eq]
    exact hne
  have helige : eligibleFor e.address e = true := by
    simp [eligibleFor, he_act, he_st]
  have helign : eligibleFor e.address n = true := by
    simp [eligibleFor, hn_act, hn_st, hn_addr]
  have hrow : rowOkB { e with amount_left := e.amount_left - d } = true := by
    simp only [rowOkB, Bool.and_eq_true, decide_eq_true_eq]
    refine ⟨⟨by linarith, by linarith⟩, by linarith⟩
  have hupde : updateOne [(e.id, e.amount_left - d)] e =
      { e with amount_left := e.amount_left - d } := by
    simp [updateOne, List.lookup]
  have hupdn : updateOne [(e.id, e.amount_left - d)] n = n := by
    simp [updateOne, List.lookup, hbeq]
  have hdrain := drainLoop_first e [n] d hd0 (le_of_lt hdlt)
  rcases hdb with hdb | hdb
  · have hfil : db.transactions.filter (eligibleFor e.address) = [e, n] := by
      rw [hdb]
      simp [List.filter_cons, helige, helign]
    have hsort : sortByExpiry [e, n] = [e, n] := by
      simp [sortByExpiry, insertByExp, hn_exp, he_exp, expKeyLt]
    have hcommit : commitOkB [e, n]
        [{ e with amount_left := e.amount_left - d }, n] = true := by
      simp [commitOkB, List.zip_cons_cons, List.all_cons, hrow]
    simp only [use_credits, hfil, hsort, hdrain]
    rw [hdb]
    simp only [applyUpdates, debitOnly, List.map_cons, List.map_nil, hupde, hupdn]
    rw [if_pos hcommit]
    simp [hne]
  · have hfil : db.transactions.filter (eligibleFor e.address) = [n, e] := by
      rw [hdb]
      simp [List.filter_cons, helige, helign]
    have hsort : sortByExpiry [n, e] = [e, n] := by
      simp [sortByExpiry, insertByExp, hn_exp, he_exp, expKeyLt]
    have hcommit : commitOkB [n, e]
        [n, { e with amount_left := e.amount_left - d }] = true := by
      simp [commitOkB, List.zip_cons_cons, List.all_cons, hrow]
    simp only [use_credits, hfil, hsort, hdrain]
    rw [hdb]
    simp only [applyUpdates, debitOnly, List.map_cons, List.map_nil, hupde, hupdn]
    rw [if_pos hcommit]
    simp [hne]

/-- The expiring transaction of the C3 witness ledger. -/
def c3e : CreditTransaction :=
  { id := 1
    transaction_hash := some "0xe"
    address := "addrC"
    amount := 10
    amount_left := 10
    provider := CreditTransactionProvider.voucher
    block_number := none
    expired_at := some 100
    is_active := true
    status := CreditTransactionStatus.completed }

/-- The never-expiring transaction of the C3 witness ledger. -/
def c3n : CreditTransaction :=
  { id := 2
    transaction_hash := none
    address := "addrC"
    amount := 20
    amount_left := 20
    provider := CreditTransactionProvider.voucher
    block_number := none
    expired_at := none
    is_active := true
    status := CreditTransactionStatus.completed }

/-- Witness ledger for the C3 theorem, never-expiring row stored first. -/
def c3db : DB :=
  { users := ["addrC"], transactions := [c3n, c3e], nextId := 3 }

/-- C3 witness: debiting 4 from the concrete two-transaction ledger only
touches the expiring transaction. -/
theorem use_credits_expiring_first_witness :
    use_credits c3db c3e.address 4 =
      .ok (true, { c3db with transactions := debitOnly c3e.id 4 c3db.transactions }) :=
  use_credits_expiring_first c3e c3n c3db 4 100 rfl rfl rfl rfl rfl rfl rfl
    (by decide) (by decide) (by decide) (by decide) (Or.inr rfl)

/-- C4: when `use_credits` is called with an amount exceeding the
address's available balance, it drains every eligible transaction's
`amount_left` to exactly zero (rows saturate, never go negative), still
returns `True`, and the resulting balance for that address is 0. -/
theorem use_credits_insufficiency_drains (db : DB) (addr : String) (amount : ℚ)
    (hinv : ∀ t ∈ db.transactions, 0 ≤ t.amount_left ∧ t.amount_left ≤ t.amount)
    (huser : db.users.contains addr = true)
    (hins : get_balance db addr < amount) :
    ∃ db1, use_credits db addr amount = .ok (true, db1) ∧
      get_balance db1 addr = 0 ∧
      ∀ t ∈ db1.transactions, eligibleFor addr t = true → t.amount_left = 0 := by
  have hperm : (sortByExpiry (db.transactions.filter (eligibleFor addr))).Perm
      (db.transactions.filter (eligibleFor addr)) :=
    sortByExpiry_perm _
  set sorted := sortByExpiry (db.transactions.filter (eligibleFor addr)) with hsorted
  have hsub : ∀ t ∈ sorted, t ∈ db.transactions := fun t ht =>
    (List.mem_filter.mp (hperm.mem_iff.mp ht)).1
  have h0 : ∀ t ∈ sorted, 0 ≤ t.amount_left := fun t ht => (hinv t (hsub t ht)).1
  have hsum : sumLeft sorted = sumLeft (db.transactions.filter (eligibleFor addr)) := by
    unfold sumLeft
    exact (hperm.map _).sum_eq
  have hbal : get_balance db addr = sumLeft (db.transactions.filter (eligibleFor addr)) := by
    rw [get_balance, if_pos huser]
    rfl
  have hlt : sumLeft sorted < amount := by
    rw [hsum, ← hbal]
    exact hins
  have hdrain := drainLoop_insufficient sorted amount h0 hlt
  set us := ((sorted.filter (fun t => decide (0 < t.amount_left))).map
    (fun t => (t.id, (0:ℚ)))) with hus
  have hupd : ∀ x : CreditTransaction, updateOne us x =
      if ((sorted.filter (fun t => decide (0 < t.amount_left))).map
          (fun t => t.id)).contains x.id
      then { x with amount_left := 0 } else x := by
    intro x
    by_cases hcx : ((sorted.filter (fun t => decide (0 < t.amount_left))).map
        (fun t => t.id)).contains x.id = true
    · simp only [updateOne, hus, lookup_map_zero]
      rw [if_pos hcx, if_pos hcx]
    · simp only [updateOne, hus, lookup_map_zero]
      rw [if_neg hcx, if_neg hcx]
  have hcommit : commitOkB db.transactions (applyUpdates db.transactions us) = true := by
    rw [applyUpdates, commitOkB_map, List.all_eq_true]
    intro x hx
    rw [hupd x]
    by_cases hcx : ((sorted.filter (fun t => decide (0 < t.amount_left))).map
        (fun t => t.id)).contains x.id = true
    · rw [if_pos hcx]
      have hrow : rowOkB { x with amount_left := (0:ℚ) } = true := by
        simp only [rowOkB, Bool.and_eq_true, decide_eq_true_eq]
        have h1 := (hinv x hx).1
        have h2 := (hinv x hx).2
        refine ⟨⟨by linarith, le_refl 0⟩, by linarith⟩
      simp [hrow]
    · rw [if_neg hcx]
      simp
  have hresult : use_credits db addr amount =
      .ok (true, { db with transactions := applyUpdates db.transactions us }) := by
    simp only [use_credits, ← hsorted, hdrain]
    rw [if_pos hcommit]
  have hzero : ∀ t ∈ applyUpdates db.transactions us,
      eligibleFor addr t = true → t.amount_left = 0 := by
    intro t ht helig
    obtain ⟨x, hx, hxe⟩ :=
      List.mem_map.mp (show t ∈ db.transactions.map (updateOne us) from ht)
    by_cases hcx : ((sorted.filter (fun t => decide (0 < t.amount_left))).map
        (fun t => t.id)).contains x.id = true
    · rw [← hxe, hupd x, if_pos hcx]
    · have hteqx : t = x := by
        rw [← hxe, hupd x, if_neg hcx]
      by_contra hne0
      have hpos : 0 < x.amount_left := by
        rcases lt_or_eq_of_le (hinv x hx).1 with hh | hh
        · exact hh
        · exact absurd (by rw [hteqx, ← hh]) hne0
      have hxelig : eligibleFor addr x = true := by
        rwa [hteqx] at helig
      have hxin : x ∈ sorted.filter (fun t => decide (0 < t.amount_left)) := by
        apply List.mem_filter.mpr
        refine ⟨hperm.mem_iff.mpr (List.mem_filter.mpr ⟨hx, hxelig⟩), by simpa using hpos⟩
      exact hcx (List.elem_iff.mpr (List.mem_map.mpr ⟨x, hxin, rfl⟩))
  refine ⟨{ db with transactions := applyUpdates db.transactions us }, hresult, ?_, ?_⟩
  · have huser1 : ({ db with transactions := applyUpdates db.transactions us } :
        DB).users.contains addr = true := huser
    rw [get_balance, if_pos huser1, credit_balance]
    apply sumLeft_eq_zero
    intro t ht
    obtain ⟨htA, hteli⟩ := List.mem_filter.mp ht
    exact hzero t htA hteli
  · intro t ht helig
    exact hzero t ht helig

/-- A fully-consumed transaction for the C4 witness ledger. -/
def c4tx : CreditTransaction :=
  { id := 0
    transaction_hash := none
    address := "addr4"
    amount := 5
    amount_left := 0
    provider := CreditTransactionProvider.voucher
    block_number := none
    expired_at := none
    is_active := true
    status := CreditTransactionStatus.completed }

/-- Witness ledger for the C4 theorem. -/
def c4db : DB :=
  { users := ["addr4"], transactions := [c4tx], nextId := 1 }

/-- C4 witness: requesting 3 against a balance of 0 succeeds and leaves
balance 0. -/
theorem use_credits_insufficiency_drains_witness :
    ∃ db1, use_credits c4db "addr4" 3 = .ok (true, db1) ∧
      get_balance db1 "addr4" = 0 ∧
      ∀ t ∈ db1.transactions, eligibleFor "addr4" t = true → t.amount_left = 0 :=
  use_credits_insufficiency_drains c4db "addr4" 3 (by decide) (by decide)
    (by norm_num [get_balance, credit_balance, sumLeft, eligibleFor, c4db, c4tx])

end Libertai
